import Mathlib

/-!
Verification development for the VIC image-driver spatial-domain and
gridded-state I/O layer: the grid index model, the vegetation tile map,
the array-file descriptor and the slab I/O contract.  The data structures
are embedded from src/drivers/image/include/vic_driver_image.h; the
operations behind the header's declarations (whose bodies are not part of
the source tree) are modelled from the specification.  Machine doubles are
modelled as rationals and size_t indices as Nat.
-/

namespace VIC

/-- Maximum number of dimensions of a netcdf variable:
`#define MAXDIMS 10` in vic_driver_image.h. -/
def MAXDIMS : Nat := 10

/-- The discriminated error kinds of the error-handling design (spec §7). -/
inductive VicError where
  | IndexOutOfRange
  | InvalidCoverage
  | DimensionConflict
  | RankTooLarge
  | HandleClosed
  | SlabOutOfBounds
  | TypeMismatch
  | FileAccessFailure
deriving DecidableEq

/-- location_struct from vic_driver_image.h: one grid cell's static
identity (geographic center, area, active fraction, and the global and
local index triples). -/
structure location_struct where
  latitude : ℚ
  longitude : ℚ
  area : ℚ
  frac : ℚ
  global_cell_idx : Nat
  global_x_idx : Nat
  global_y_idx : Nat
  local_cell_idx : Nat
  local_x_idx : Nat
  local_y_idx : Nat
deriving DecidableEq

/-- domain_struct from vic_driver_image.h: the local and global domain
information, owning the ordered sequence of locations. -/
structure domain_struct where
  ncells_global : Nat
  n_nx : Nat
  n_ny : Nat
  ncells_local : Nat
  locations : List location_struct
deriving DecidableEq

/-- Modelled from the spec: the mask source feeding `get_global_domain`
(a 2-D active-cell mask over an n_nx × n_ny grid plus per-cell
latitude/longitude/area/fraction metadata).  The body of
`get_global_domain` is not under src/; only its prototype is. -/
structure MaskSource where
  n_nx : Nat
  n_ny : Nat
  mask : Nat → Nat → Bool
  lat : Nat → Nat → ℚ
  lon : Nat → Nat → ℚ
  cellArea : Nat → Nat → ℚ
  cellFrac : Nat → Nat → ℚ

/-- Modelled from the spec: the row-major (y outer, x inner) enumeration
of the active cells of the mask, as `(x, y)` grid positions. -/
def activeCellsScan (src : MaskSource) : List (Nat × Nat) :=
  (List.range src.n_ny).flatMap (fun y =>
    (List.range src.n_nx).filterMap (fun x =>
      if src.mask x y then some (x, y) else none))

/-- Modelled from the spec: the location record of the active cell at grid
position `xy` that received global compact index `k`; running as a single
compute unit, the local indices equal the global ones. -/
def mkLocation (src : MaskSource) (k : Nat) (xy : Nat × Nat) : location_struct :=
  { latitude := src.lat xy.1 xy.2
    longitude := src.lon xy.1 xy.2
    area := src.cellArea xy.1 xy.2
    frac := src.cellFrac xy.1 xy.2
    global_cell_idx := k
    global_x_idx := xy.1
    global_y_idx := xy.2
    local_cell_idx := k
    local_x_idx := xy.1
    local_y_idx := xy.2 }

/-- Modelled from the spec: assign consecutive global compact indices,
starting at `k`, to the listed active cells in scan order. -/
def assignIndices (src : MaskSource) : List (Nat × Nat) → Nat → List location_struct
  | [], _ => []
  | xy :: rest, k => mkLocation src k xy :: assignIndices src rest (k + 1)

/-- Modelled from the spec: `get_global_domain` (buildDomain, §4.1): scan
the grid in row-major (y outer, x inner) order, give every active cell the
next sequential global compact index, record its `(x, y)` grid position;
as a single compute unit the local cell list equals the global one. -/
def get_global_domain (src : MaskSource) : domain_struct :=
  { ncells_global := (activeCellsScan src).length
    n_nx := src.n_nx
    n_ny := src.n_ny
    ncells_local := (activeCellsScan src).length
    locations := assignIndices src (activeCellsScan src) 0 }

/-- veg_con_map_struct from vic_driver_image.h: mapping of the vegetation
types of one grid cell to a regular array — the total number of
vegetation types, the number of active ones, and the parallel arrays of
active type indices and fractional coverages. -/
structure veg_con_map_struct where
  nv_types : Nat
  nv_active : Nat
  vidx : List Int
  Cv : List ℚ
deriving DecidableEq

/-- Modelled from the spec: configuration of the tile compression (§4.2) —
the minimum-coverage threshold, the tolerance ε of the coverage-sum check,
the implicit bare-soil slot, and the optional above-treeline slot. -/
structure VegOpts where
  threshold : ℚ
  eps : ℚ
  bareIdx : Nat
  treeline : Bool
  treelineIdx : Nat
deriving DecidableEq

/-- Modelled from the spec: whether class `i` is one of the force-included
implicit slots — the bare-soil slot always, the above-treeline slot when
the treeline option is active. -/
def vegForced (o : VegOpts) (i : Nat) : Bool :=
  i == o.bareIdx || (o.treeline && i == o.treelineIdx)

/-- Modelled from the spec: whether class `i` is included by `compress` —
its fraction exceeds the minimum-coverage threshold, or it is a forced
implicit slot. -/
def vegSelected (o : VegOpts) (arr : List ℚ) (i : Nat) : Bool :=
  decide (o.threshold < arr.getD i 0) || vegForced o i

/-- Modelled from the spec: the ascending list of class indices that
`compress` includes. -/
def selectedIdxs (o : VegOpts) (arr : List ℚ) : List Nat :=
  (List.range arr.length).filter (vegSelected o arr)

/-- Modelled from the spec: the coverage sum of the included classes,
after force-including the implicit slots. -/
def selectedSum (o : VegOpts) (arr : List ℚ) : ℚ :=
  ((selectedIdxs o arr).map (fun i => arr.getD i 0)).sum

/-- Modelled from the spec: the `[1-ε, 1+ε]` check on the coverage sum of
the included classes. -/
def coverageOk (o : VegOpts) (arr : List ℚ) : Bool :=
  decide (1 - o.eps ≤ selectedSum o arr) && decide (selectedSum o arr ≤ 1 + o.eps)

/-- Modelled from the spec: `compress` (§4.2) — iterate the candidate
class indices in ascending order, include a class iff its fraction exceeds
the minimum-coverage threshold, force-include the implicit bare-soil slot
and, when the treeline option is active, the above-treeline slot; fail
with InvalidCoverage when the resulting fractions sum outside
`[1-ε, 1+ε]`. -/
def compress (o : VegOpts) (arr : List ℚ) : Except VicError veg_con_map_struct :=
  if coverageOk o arr then
    .ok { nv_types := arr.length
          nv_active := (selectedIdxs o arr).length
          vidx := (selectedIdxs o arr).map Int.ofNat
          Cv := (selectedIdxs o arr).map (fun i => arr.getD i 0) }
  else .error .InvalidCoverage

/-- Modelled from the spec: the scatter step of `expand` — the coverage
value held by the parallel arrays at class index `i`, zero when `i` is
not an active tile. -/
def scatter : List Int → List ℚ → Int → ℚ
  | [], _, _ => 0
  | _ :: _, [], _ => 0
  | v :: vs, c :: cs, i => if v = i then c else scatter vs cs i

/-- Modelled from the spec: `expand` (§4.2) — zero-fill a dense array of
`nv_types` fractions, then scatter `Cv[k]` to `vidx[k]`. -/
def expand (m : veg_con_map_struct) : List ℚ :=
  (List.range m.nv_types).map (fun i => scatter m.vidx m.Cv (Int.ofNat i))

/-- Concrete compression configuration used as a witness input: threshold
1/4, ε = 1/4, bare-soil slot 0, treeline option inactive. -/
def cexOpts : VegOpts :=
  { threshold := 1/4, eps := 1/4, bareIdx := 0, treeline := false, treelineIdx := 0 }

/-- Concrete dense coverage array summing to 1 whose slot 1 sits exactly
at the coverage threshold. -/
def cexArr : List ℚ := [3/4, 1/4, 0]

/-- The tile map that `compress cexOpts cexArr` produces. -/
def cexMap : veg_con_map_struct :=
  { nv_types := 3, nv_active := 1, vidx := [0], Cv := [3/4] }

/-- Concrete dense coverage array whose included fractions sum to 3/2,
outside `[1-ε, 1+ε] = [3/4, 5/4]`. -/
def cexBadArr : List ℚ := [3/4, 1/4, 3/4]

/-- The element types of the gridded-variable I/O surface, one per fill
value of nc_file_struct (char, int, float, double). -/
inductive ElemType where
  | tChar
  | tInt
  | tFloat
  | tDouble
deriving DecidableEq

/-- A value of one of the supported element types (chars and ints as
integers, floats and doubles as rationals). -/
inductive NcVal where
  | vc : Int → NcVal
  | vi : Int → NcVal
  | vf : ℚ → NcVal
  | vd : ℚ → NcVal
deriving DecidableEq

/-- The element type a value belongs to. -/
def NcVal.elemType : NcVal → ElemType
  | .vc _ => .tChar
  | .vi _ => .tInt
  | .vf _ => .tFloat
  | .vd _ => .tDouble

/-- Modelled from the spec: the aggregation-method tag of a variable
(`nc_aggtype`, "as defined in vic_def.h" — vic_def.h is not under src/):
sum, average, end-of-period value, min, max. -/
inductive AggType where
  | AGG_SUM
  | AGG_AVERAGE
  | AGG_END_VALUE
  | AGG_MIN
  | AGG_MAX
deriving DecidableEq

/-- Modelled from the spec: one variable's in-file state — its declared
per-dimension extents, element type, and stored contents per multi-index
(`none` marks an index never written). -/
structure NcVarState where
  shape : List Nat
  etype : ElemType
  data : List Nat → Option NcVal

/-- nc_file_struct from vic_driver_image.h: one open array-file session —
the per-element-type fill values, the named dimensions with their handles
and cached sizes (the fixed `*_dimid`/`*_size` field pairs of the source
struct become one table), the defined variables, and the open flag (the
source field `open` is a Lean keyword, hence `isOpen`). -/
structure nc_file_struct where
  fname : String
  c_fillvalue : Int
  i_fillvalue : Int
  d_fillvalue : ℚ
  f_fillvalue : ℚ
  dims : List (String × Nat × Nat)
  nextDimId : Nat
  vars : List (String × NcVarState)
  isOpen : Bool

/-- The handle's fill value for each element type. -/
def fillOf (f : nc_file_struct) : ElemType → NcVal
  | .tChar => .vc f.c_fillvalue
  | .tInt => .vi f.i_fillvalue
  | .tFloat => .vf f.f_fillvalue
  | .tDouble => .vd f.d_fillvalue

/-- Dimension-table lookup by name: the handle and cached size. -/
def dimLookup : List (String × Nat × Nat) → String → Option (Nat × Nat)
  | [], _ => none
  | (nm, id, sz) :: rest, n => if nm = n then some (id, sz) else dimLookup rest n

/-- Variable-table lookup by name. -/
def varLookup : List (String × NcVarState) → String → Option NcVarState
  | [], _ => none
  | (nm, v) :: rest, n => if nm = n then some v else varLookup rest n

/-- Replace the state of the named variable. -/
def varUpdate : List (String × NcVarState) → String → NcVarState →
    List (String × NcVarState)
  | [], _, _ => []
  | (nm, v) :: rest, n, w =>
    if nm = n then (nm, w) :: rest else (nm, v) :: varUpdate rest n w

/-- Modelled from the spec: append a fresh dimension to the table,
allocating the next free handle. -/
def addDim (f : nc_file_struct) (nm : String) (size : Nat) : nc_file_struct :=
  { f with
      dims := f.dims ++ [(nm, f.nextDimId, size)]
      nextDimId := f.nextDimId + 1 }

/-- Modelled from the spec: `defineDimension` (§4.3, realized by the
history/state file initialization behind the header and queried through
`get_nc_dimension`): redefining an existing dimension with the same size
is a no-op returning the existing handle; a mismatched size fails with
DimensionConflict; a new name is appended with the next free handle. -/
def defineDimension (f : nc_file_struct) (nm : String) (size : Nat) :
    Except VicError (nc_file_struct × Nat) :=
  if f.isOpen = false then .error .HandleClosed
  else
    match dimLookup f.dims nm with
    | some (id, sz) => if sz = size then .ok (f, id) else .error .DimensionConflict
    | none => .ok (addDim f nm size, f.nextDimId)

/-- nc_var_struct from vic_driver_image.h: one variable's shape contract —
name, units, dimension ids and per-dimension extents (fixed MAXDIMS-sized
arrays in the source, lists here), element type, aggregation tag, declared
rank `nc_dims`, and the write-enabled flag. -/
structure nc_var_struct where
  nc_var_name : String
  nc_units : String
  nc_dimids : List Nat
  nc_counts : List Nat
  nc_type : ElemType
  nc_aggtype : AggType
  nc_dims : Nat
  nc_write : Bool

/-- Modelled from the spec: `defineVariable` (§4.3) — fails with
RankTooLarge when the declared rank exceeds MAXDIMS, otherwise registers
the variable with its declared extents and a never-written store. -/
def defineVariable (f : nc_file_struct) (vspec : nc_var_struct) :
    Except VicError nc_file_struct :=
  if f.isOpen = false then .error .HandleClosed
  else if MAXDIMS < vspec.nc_dims then .error .RankTooLarge
  else
    .ok { f with vars := f.vars ++
      [(vspec.nc_var_name,
        { shape := vspec.nc_counts.take vspec.nc_dims
          etype := vspec.nc_type
          data := fun _ => none })] }

/-- Whether a fallible operation succeeded. -/
def vicOk {α : Type} : Except VicError α → Bool
  | .ok _ => true
  | .error _ => false

/-- Modelled from the spec: the bounds check of a slab request — both
index vectors have the variable's rank and
`start[d] + count[d] ≤ declaredExtent[d]` on every dimension. -/
def slabOk (shape start count : List Nat) : Bool :=
  (start.length == shape.length) && (count.length == shape.length) &&
    (List.range shape.length).all
      (fun d => decide (start.getD d 0 + count.getD d 0 ≤ shape.getD d 0))

/-- Modelled from the spec: the multi-index of the k-th element, in
row-major order, of the slab described by `start`/`count`. -/
def unrank : List Nat → List Nat → Nat → List Nat
  | [], _, _ => []
  | _ :: _, [], _ => []
  | s :: ss, _ :: cs, k => (s + k / cs.prod) :: unrank ss cs (k % cs.prod)

/-- Modelled from the spec: the row-major position of multi-index `j`
inside the slab described by `start`/`count`, `none` when `j` lies outside
the slab. -/
def slabPos : List Nat → List Nat → List Nat → Option Nat
  | [], [], [] => some 0
  | s :: ss, c :: cs, j :: js =>
    if s ≤ j ∧ j < s + c then
      (slabPos ss cs js).map (fun p => (j - s) * cs.prod + p)
    else none
  | _, _, _ => none

/-- Modelled from the spec: `readSlab` (get_nc_field_double / float /
int, whose bodies are not under src/) — returns the `count.prod` elements
of the requested hyper-rectangle in row-major order, substituting the
handle's fill value for the variable's element type at every never-written
index; fails with HandleClosed on a closed handle and SlabOutOfBounds when
the request leaves the declared extents. -/
def readSlab (f : nc_file_struct) (varName : String) (start count : List Nat) :
    Except VicError (List NcVal) :=
  if f.isOpen = false then .error .HandleClosed
  else
    match varLookup f.vars varName with
    | none => .error .FileAccessFailure
    | some v =>
      if slabOk v.shape start count = false then .error .SlabOutOfBounds
      else
        .ok ((List.range count.prod).map (fun k =>
          (v.data (unrank start count k)).getD (fillOf f v.etype)))

/-- Modelled from the spec: the store contents after a slab write — every
index inside the written slab holds the corresponding buffer element, all
other indices keep their old contents. -/
def writeData (start count : List Nat) (buf : List NcVal)
    (old : List Nat → Option NcVal) : List Nat → Option NcVal :=
  fun j =>
    match slabPos start count j with
    | some p =>
      match buf.get? p with
      | some b => some b
      | none => old j
    | none => old j

/-- Modelled from the spec: `writeSlab` (put_nc_field_double / int, whose
bodies are not under src/) — stores the buffer over the requested
hyper-rectangle; fails with HandleClosed on a closed handle, with
TypeMismatch when a buffer element's type differs from the variable's, and
with SlabOutOfBounds when the request leaves the declared extents or the
buffer does not have the slab's size. -/
def writeSlab (f : nc_file_struct) (varName : String) (start count : List Nat)
    (buf : List NcVal) : Except VicError nc_file_struct :=
  if f.isOpen = false then .error .HandleClosed
  else
    match varLookup f.vars varName with
    | none => .error .FileAccessFailure
    | some v =>
      if slabOk v.shape start count = false then .error .SlabOutOfBounds
      else if buf.all (fun b => b.elemType == v.etype) = false then
        .error .TypeMismatch
      else if buf.length ≠ count.prod then .error .SlabOutOfBounds
      else
        let w : NcVarState := { v with data := writeData start count buf v.data }
        .ok { f with vars := varUpdate f.vars varName w }

/-- The element types for which vic_driver_image.h declares a slab read:
get_nc_field_double, get_nc_field_float, get_nc_field_int. -/
def getFieldElemTypes : List ElemType := [.tDouble, .tFloat, .tInt]

/-- The element types for which vic_driver_image.h declares a slab write:
put_nc_field_double, put_nc_field_int. -/
def putFieldElemTypes : List ElemType := [.tDouble, .tInt]

/-- Modelled from the spec: accumulator state of a time-aggregated
variable — the running value (`none` when nothing has been accumulated
since the last flush, standing for 0 for SUM/AVERAGE, for the conceptual
±∞ of MIN/MAX and for the fill value of END_VALUE) and the sub-step
count. -/
structure AggState where
  val : Option ℚ
  steps : Nat
deriving DecidableEq

/-- Modelled from the spec: the identity accumulator of each aggregation
kind, used at initialization and as the reset target of a flush. -/
def aggIdentity : AggType → AggState
  | .AGG_SUM => { val := some 0, steps := 0 }
  | .AGG_AVERAGE => { val := some 0, steps := 0 }
  | _ => { val := none, steps := 0 }

/-- Modelled from the spec: accumulate one sub-step value — SUM and
AVERAGE add, END_VALUE keeps the latest value, MIN and MAX keep the
running extremum. -/
def aggStep (t : AggType) (s : AggState) (x : ℚ) : AggState :=
  match t with
  | .AGG_SUM => { val := some (s.val.getD 0 + x), steps := s.steps + 1 }
  | .AGG_AVERAGE => { val := some (s.val.getD 0 + x), steps := s.steps + 1 }
  | .AGG_END_VALUE => { val := some x, steps := s.steps + 1 }
  | .AGG_MIN =>
    { val := some (match s.val with | none => x | some m => min m x)
      steps := s.steps + 1 }
  | .AGG_MAX =>
    { val := some (match s.val with | none => x | some m => max m x)
      steps := s.steps + 1 }

/-- Modelled from the spec: flush — emit the aggregated value (AVERAGE
divides the running sum by the step count; END_VALUE, MIN and MAX fall
back to the fill value when nothing was accumulated) and reset the
accumulator to the identity of its kind. -/
def aggFlush (t : AggType) (fill : ℚ) (s : AggState) : ℚ × AggState :=
  (match t with
   | .AGG_SUM => s.val.getD 0
   | .AGG_AVERAGE => s.val.getD 0 / (s.steps : ℚ)
   | .AGG_END_VALUE => s.val.getD fill
   | .AGG_MIN => s.val.getD fill
   | .AGG_MAX => s.val.getD fill,
   aggIdentity t)

/-- Accumulate a list of sub-step values from the identity state, then
flush. -/
def aggRun (t : AggType) (fill : ℚ) (xs : List ℚ) : ℚ × AggState :=
  aggFlush t fill (xs.foldl (aggStep t) (aggIdentity t))

/-- Name of the sample variable used by the concrete I/O witnesses. -/
def sampleVarName : String := "OUT_PREC"

/-- A sample never-written 1-D double variable of extent 2. -/
def sampleVar : NcVarState :=
  { shape := [2], etype := .tDouble, data := fun _ => none }

/-- A sample open history file holding `sampleVar`. -/
def sampleFile : nc_file_struct :=
  { fname := "hist.nc"
    c_fillvalue := 0
    i_fillvalue := -99
    d_fillvalue := 9999
    f_fillvalue := 9999
    dims := [("ni", 0, 2)]
    nextDimId := 1
    vars := [(sampleVarName, sampleVar)]
    isOpen := true }

/-- A sample double buffer for the write-then-read witness. -/
def sampleBuf : List NcVal := [.vd 1, .vd 2]

/-- The file produced by writing `sampleBuf` over the whole extent of the
sample variable. -/
def sampleWritten : nc_file_struct :=
  match writeSlab sampleFile sampleVarName [0] [2] sampleBuf with
  | .ok f => f
  | .error _ => sampleFile

/-- Name of the sample dimension used by the defineDimension witness. -/
def sampleDimName : String := "time"

/-- The file produced by defining dimension `time` of size 4 on the
sample file. -/
def dimFile : nc_file_struct :=
  match defineDimension sampleFile sampleDimName 4 with
  | .ok p => p.1
  | .error _ => sampleFile

/-- A sample rank-1 variable descriptor. -/
def sampleVarSpec : nc_var_struct :=
  { nc_var_name := "OUT_EVAP"
    nc_units := "mm"
    nc_dimids := [0]
    nc_counts := [2]
    nc_type := .tDouble
    nc_aggtype := .AGG_SUM
    nc_dims := 1
    nc_write := true }

lemma assignIndices_map_global_idx (src : MaskSource) :
    ∀ (l : List (Nat × Nat)) (k : Nat),
      (assignIndices src l k).map location_struct.global_cell_idx
        = List.range' k l.length
  | [], _ => rfl
  | xy :: rest, k => by
    simp [assignIndices, mkLocation, List.range',
      assignIndices_map_global_idx src rest (k + 1)]

lemma assignIndices_map_pos (src : MaskSource) :
    ∀ (l : List (Nat × Nat)) (k : Nat),
      (assignIndices src l k).map
          (fun loc => (loc.global_x_idx, loc.global_y_idx)) = l
  | [], _ => rfl
  | xy :: rest, k => by
    simp [assignIndices, mkLocation, assignIndices_map_pos src rest (k + 1)]

/-- C1: for every active-cell mask, `get_global_domain` yields
`ncells_local ≤ ncells_global`, assigns each active cell the next
sequential global compact index (the compact indices are exactly
`0, 1, …, ncells_global - 1` and strictly increasing), and lists the
active cells in row-major (y outer, x inner) scan order. -/
theorem get_global_domain_spec (src : MaskSource) :
    (get_global_domain src).ncells_local ≤ (get_global_domain src).ncells_global ∧
    ((get_global_domain src).locations.map location_struct.global_cell_idx
        = List.range (get_global_domain src).ncells_global) ∧
    List.Pairwise (fun a b => a < b)
      ((get_global_domain src).locations.map location_struct.global_cell_idx) ∧
    ((get_global_domain src).locations.map
        (fun loc => (loc.global_x_idx, loc.global_y_idx))
      = activeCellsScan src) := by
  refine ⟨le_refl _, ?_, ?_, assignIndices_map_pos src _ 0⟩
  · show (assignIndices src (activeCellsScan src) 0).map _ = _
    rw [assignIndices_map_global_idx, List.range_eq_range']
    rfl
  · show List.Pairwise _ ((assignIndices src (activeCellsScan src) 0).map _)
    rw [assignIndices_map_global_idx]
    exact List.pairwise_lt_range' _ _

lemma scatter_map_mem (f : Nat → ℚ) :
    ∀ (l : List Nat) (i : Nat), i ∈ l →
      scatter (l.map Int.ofNat) (l.map f) (Int.ofNat i) = f i
  | [], i, h => absurd h (List.not_mem_nil i)
  | a :: as, i, h => by
    by_cases hai : a = i
    · subst hai; simp [scatter]
    · have hi : i ∈ as := by
        rcases List.mem_cons.mp h with h1 | h1
        · exact absurd h1.symm hai
        · exact h1
      simp only [List.map_cons, scatter]
      rw [if_neg]
      · exact scatter_map_mem f as i hi
      · simp only [Int.ofNat.injEq]; exact hai

lemma scatter_map_not_mem (f : Nat → ℚ) :
    ∀ (l : List Nat) (i : Nat), i ∉ l →
      scatter (l.map Int.ofNat) (l.map f) (Int.ofNat i) = 0
  | [], _, _ => rfl
  | a :: as, i, h => by
    have hai : a ≠ i := fun e => h (e ▸ List.mem_cons_self a as)
    have hrec := scatter_map_not_mem f as i (fun hm => h (List.mem_cons_of_mem a hm))
    simp only [List.map_cons, scatter]
    rw [if_neg]
    · exact hrec
    · simp only [Int.ofNat.injEq]; exact hai

lemma getD_map_range (f : Nat → ℚ) (n i : Nat) (h : i < n) :
    ((List.range n).map f).getD i 0 = f i := by
  rw [List.getD_eq_getElem?_getD, List.getElem?_map, List.getElem?_range h]
  rfl

/-- C6: `compress` fails with InvalidCoverage exactly when the coverage
fractions of the included classes — the implicit slots force-included —
sum outside `[1-ε, 1+ε]`, and succeeds on any input whose sum lies within
that interval. -/
theorem compress_invalid_coverage (o : VegOpts) (arr : List ℚ) :
    (compress o arr = .error .InvalidCoverage ↔ coverageOk o arr = false) ∧
    (coverageOk o arr = true → ∃ m, compress o arr = .ok m) := by
  unfold compress
  cases h : coverageOk o arr <;> simp [h]

/-- C6 witness: a concrete input whose forced coverage sum 3/2 lies
outside [3/4, 5/4] is rejected with InvalidCoverage. -/
theorem compress_invalid_coverage_witness :
    compress cexOpts cexBadArr = .error .InvalidCoverage :=
  (compress_invalid_coverage cexOpts cexBadArr).1.mpr (by with_unfolding_all decide)

/-- C2 counterexample: on `cexArr = [3/4, 1/4, 0]` with coverage threshold
1/4, slot 1 sits exactly at the threshold (so it is "at or above" it),
`compress` succeeds, yet `expand (compress cexArr)` differs from `cexArr`
at slot 1 — inclusion requires the fraction to strictly exceed the
threshold, refuting the claim's "at or above". -/
theorem expand_compress_cex :
    cexArr.sum = 1 ∧
    cexOpts.threshold ≤ cexArr.getD 1 0 ∧
    compress cexOpts cexArr = .ok cexMap ∧
    (expand cexMap).getD 1 0 ≠ cexArr.getD 1 0 := by
  refine ⟨by with_unfolding_all decide, by with_unfolding_all decide,
    by with_unfolding_all rfl, by with_unfolding_all decide⟩

/-- C2 (amended): when `compress` succeeds, `expand (compress arr)` equals
`arr` at every index whose fraction strictly exceeds the coverage
threshold and at every forced implicit slot, and differs from `arr` only
at non-forced indices whose fraction is at or below the threshold. -/
theorem expand_compress (o : VegOpts) (arr : List ℚ) (m : veg_con_map_struct)
    (h : compress o arr = .ok m) :
    (∀ i, i < arr.length → vegSelected o arr i = true →
        (expand m).getD i 0 = arr.getD i 0) ∧
    (∀ i, (expand m).getD i 0 ≠ arr.getD i 0 →
        arr.getD i 0 ≤ o.threshold ∧ vegForced o i = false) := by
  have hok : coverageOk o arr = true := by
    by_cases hc : coverageOk o arr = true
    · exact hc
    · rw [Bool.not_eq_true] at hc
      simp [compress, hc] at h
  have hm : m = { nv_types := arr.length
                  nv_active := (selectedIdxs o arr).length
                  vidx := (selectedIdxs o arr).map Int.ofNat
                  Cv := (selectedIdxs o arr).map (fun i => arr.getD i 0) } := by
    unfold compress at h
    rw [hok, if_pos rfl] at h
    injection h with h2
    exact h2.symm
  subst hm
  have main : ∀ i, i < arr.length → vegSelected o arr i = true →
      (expand { nv_types := arr.length
                nv_active := (selectedIdxs o arr).length
                vidx := (selectedIdxs o arr).map Int.ofNat
                Cv := (selectedIdxs o arr).map (fun i => arr.getD i 0) }).getD i 0
        = arr.getD i 0 := by
    intro i hi hsel
    unfold expand
    rw [getD_map_range _ _ _ hi]
    exact scatter_map_mem (fun j => arr.getD j 0) (selectedIdxs o arr) i
      (List.mem_filter.mpr ⟨List.mem_range.mpr hi, hsel⟩)
  refine ⟨main, ?_⟩
  intro i hne
  by_cases hi : i < arr.length
  · by_cases hsel : vegSelected o arr i = true
    · exact absurd (main i hi hsel) hne
    · rw [Bool.not_eq_true] at hsel
      unfold vegSelected at hsel
      rcases Bool.or_eq_false_iff.mp hsel with ⟨h1, h2⟩
      exact ⟨le_of_not_lt (of_decide_eq_false h1), h2⟩
  · exfalso
    apply hne
    have hlen : arr.length ≤ i := le_of_not_lt hi
    rw [List.getD_eq_default _ _ hlen]
    rw [List.getD_eq_default]
    simp [expand]
    exact hlen

/-- C2 witness for the amended claim: at slot 0 of the counterexample
input (fraction 3/4, strictly above the threshold 1/4, and the forced
bare-soil slot), expansion reproduces the original fraction. -/
theorem expand_compress_witness :
    (expand cexMap).getD 0 0 = cexArr.getD 0 0 := by
  have h := (expand_compress cexOpts cexArr cexMap (by with_unfolding_all rfl)).1
    0 (by decide) (by with_unfolding_all decide)
  exact h

lemma two_le_length_of_mem_ne {l : List Nat} {a b : Nat}
    (ha : a ∈ l) (hb : b ∈ l) (hab : a ≠ b) : 2 ≤ l.length := by
  match l with
  | [] => exact absurd ha (List.not_mem_nil a)
  | [x] =>
    have h1 := List.mem_singleton.mp ha
    have h2 := List.mem_singleton.mp hb
    exact absurd (h1.trans h2.symm) hab
  | x :: y :: rest => simp only [List.length_cons]; omega

/-- C9: every tile map produced by `compress` satisfies the VegTileMap
invariant: the parallel arrays `vidx` and `Cv` both have length
`nv_active`, `nv_active ≤ nv_types`, `nv_active ≥ 1` (the bare-soil slot
is always counted, and one more slot when the treeline option is active),
`vidx` is strictly increasing, and the coverages sum to 1 within ε. -/
theorem compress_invariant (o : VegOpts) (arr : List ℚ) (m : veg_con_map_struct)
    (h : compress o arr = .ok m) (hbare : o.bareIdx < arr.length) :
    m.vidx.length = m.nv_active ∧
    m.Cv.length = m.nv_active ∧
    m.nv_active ≤ m.nv_types ∧
    1 ≤ m.nv_active ∧
    m.nv_types = arr.length ∧
    List.Pairwise (fun a b => a < b) m.vidx ∧
    (1 - o.eps ≤ m.Cv.sum ∧ m.Cv.sum ≤ 1 + o.eps) ∧
    (o.treeline = true → o.treelineIdx < arr.length →
      o.treelineIdx ≠ o.bareIdx → 2 ≤ m.nv_active) := by
  have hok : coverageOk o arr = true := by
    by_cases hc : coverageOk o arr = true
    · exact hc
    · rw [Bool.not_eq_true] at hc
      simp [compress, hc] at h
  have hm : m = { nv_types := arr.length
                  nv_active := (selectedIdxs o arr).length
                  vidx := (selectedIdxs o arr).map Int.ofNat
                  Cv := (selectedIdxs o arr).map (fun i => arr.getD i 0) } := by
    unfold compress at h
    rw [hok, if_pos rfl] at h
    injection h with h2
    exact h2.symm
  subst hm
  have hbmem : o.bareIdx ∈ selectedIdxs o arr :=
    List.mem_filter.mpr ⟨List.mem_range.mpr hbare, by simp [vegSelected, vegForced]⟩
  have hsum : 1 - o.eps ≤ selectedSum o arr ∧ selectedSum o arr ≤ 1 + o.eps := by
    have hc := hok
    simp [coverageOk] at hc
    exact ⟨by linarith [hc.1], hc.2⟩
  refine ⟨by simp, by simp, ?_, ?_, rfl, ?_, ⟨?_, ?_⟩, ?_⟩
  · exact le_trans (List.length_filter_le _ _) (by simp)
  · exact List.length_pos.mpr (List.ne_nil_of_mem hbmem)
  · exact List.pairwise_map.mpr
      ((List.Pairwise.sublist (List.filter_sublist _)
        (List.pairwise_lt_range _)).imp (fun hlt => Int.ofNat_lt.mpr hlt))
  · exact hsum.1
  · exact hsum.2
  · intro ht hti hne
    have htmem : o.treelineIdx ∈ selectedIdxs o arr :=
      List.mem_filter.mpr ⟨List.mem_range.mpr hti, by simp [vegSelected, vegForced, ht]⟩
    simpa using two_le_length_of_mem_ne htmem hbmem hne

/-- C9 witness: the concrete compression of `cexArr` satisfies every
conjunct of the invariant. -/
theorem compress_invariant_witness :
    cexMap.vidx.length = cexMap.nv_active ∧
    cexMap.Cv.length = cexMap.nv_active ∧
    cexMap.nv_active ≤ cexMap.nv_types ∧
    1 ≤ cexMap.nv_active ∧
    cexMap.nv_types = cexArr.length ∧
    List.Pairwise (fun a b => a < b) cexMap.vidx ∧
    (1 - cexOpts.eps ≤ cexMap.Cv.sum ∧ cexMap.Cv.sum ≤ 1 + cexOpts.eps) ∧
    (cexOpts.treeline = true → cexOpts.treelineIdx < cexArr.length →
      cexOpts.treelineIdx ≠ cexOpts.bareIdx → 2 ≤ cexMap.nv_active) :=
  compress_invariant cexOpts cexArr cexMap (by with_unfolding_all rfl) (by decide)

lemma varLookup_varUpdate (vs : List (String × NcVarState)) (n : String)
    (v w : NcVarState) (h : varLookup vs n = some v) :
    varLookup (varUpdate vs n w) n = some w := by
  induction vs with
  | nil => simp [varLookup] at h
  | cons hd tl ih =>
    obtain ⟨nm, u⟩ := hd
    by_cases he : nm = n
    · simp [varLookup, varUpdate, he]
    · simp only [varLookup, varUpdate, if_neg he] at h ⊢
      exact ih h

lemma dimLookup_append_none (ds : List (String × Nat × Nat)) (n : String)
    (i s : Nat) (h : dimLookup ds n = none) :
    dimLookup (ds ++ [(n, i, s)]) n = some (i, s) := by
  induction ds with
  | nil => simp [dimLookup]
  | cons hd tl ih =>
    obtain ⟨nm, id, sz⟩ := hd
    by_cases he : nm = n
    · simp [dimLookup, he] at h
    · simp only [List.cons_append, dimLookup, if_neg he] at h ⊢
      exact ih h

lemma slabPos_unrank :
    ∀ (start count : List Nat), start.length = count.length →
      ∀ k, k < count.prod →
        slabPos start count (unrank start count k) = some k
  | [], [], _, k, hk => by
    have hk0 : k = 0 := Nat.lt_one_iff.mp (by simpa using hk)
    subst hk0; rfl
  | [], c :: cs, h, _, _ => by simp at h
  | s :: ss, [], h, _, _ => by simp at h
  | s :: ss, c :: cs, h, k, hk => by
    have hlen : ss.length = cs.length := by simpa using h
    have hprod : 0 < cs.prod := by
      rcases Nat.eq_zero_or_pos cs.prod with h0 | h0
      · rw [List.prod_cons, h0, Nat.mul_zero] at hk
        exact absurd hk (Nat.not_lt_zero k)
      · exact h0
    have hklt : k < c * cs.prod := by simpa [List.prod_cons] using hk
    have hq : k / cs.prod < c := (Nat.div_lt_iff_lt_mul hprod).mpr hklt
    have hr : k % cs.prod < cs.prod := Nat.mod_lt _ hprod
    have ih := slabPos_unrank ss cs hlen (k % cs.prod) hr
    show slabPos (s :: ss) (c :: cs)
        ((s + k / cs.prod) :: unrank ss cs (k % cs.prod)) = some k
    unfold slabPos
    rw [if_pos ⟨Nat.le_add_right s _, Nat.add_lt_add_left hq s⟩, ih]
    have hds : s + k / cs.prod - s = k / cs.prod :=
      Nat.add_sub_cancel_left s (k / cs.prod)
    simp only [Option.map_some', hds]
    rw [Nat.mul_comm, Nat.div_add_mod]

lemma slabOk_lengths {shape start count : List Nat}
    (h : slabOk shape start count = true) :
    start.length = shape.length ∧ count.length = shape.length := by
  have h2 := h
  simp only [slabOk, Bool.and_eq_true, beq_iff_eq] at h2
  exact ⟨h2.1.1, h2.1.2⟩

lemma readSlab_eq (f : nc_file_struct) (varName : String)
    (start count : List Nat) (v : NcVarState)
    (hopen : f.isOpen = true)
    (hv : varLookup f.vars varName = some v)
    (hso : slabOk v.shape start count = true) :
    readSlab f varName start count =
      .ok ((List.range count.prod).map (fun k =>
        (v.data (unrank start count k)).getD (fillOf f v.etype))) := by
  simp [readSlab, hopen, hv, hso]

/-- C3: writing a slab and then reading the identical `(start, count)`
region on the same open handle returns exactly the written buffer — for
every supported element type, since the buffer carries values of any
element type matching the variable's. -/
theorem writeSlab_readSlab (f f2 : nc_file_struct) (varName : String)
    (start count : List Nat) (buf : List NcVal)
    (h : writeSlab f varName start count buf = .ok f2) :
    readSlab f2 varName start count = .ok buf := by
  obtain ⟨fn, cfv, ifv, dfv, ffv, dms, nid, vrs, iso⟩ := f
  cases iso with
  | false => simp [writeSlab] at h
  | true =>
    cases hv : varLookup vrs varName with
    | none => simp [writeSlab, hv] at h
    | some v =>
      cases hso : slabOk v.shape start count with
      | false => simp [writeSlab, hv, hso] at h
      | true =>
        by_cases htype : (buf.all fun b => b.elemType == v.etype) = false
        · simp [writeSlab, hv, hso, htype] at h
        · by_cases hlen : buf.length = count.prod
          · simp [writeSlab, hv, hso, htype, hlen] at h
            subst h
            rw [readSlab_eq ⟨fn, cfv, ifv, dfv, ffv, dms, nid,
                varUpdate vrs varName
                  ({ v with data := writeData start count buf v.data }), true⟩
              varName start count
              ({ v with data := writeData start count buf v.data })
              rfl (varLookup_varUpdate vrs varName v _ hv) hso]
            congr 1
            apply List.ext_getElem
            · simp [hlen]
            · intro n h1 h2
              have hn : n < count.prod := by simpa using h1
              have hsl : start.length = count.length := by
                obtain ⟨e1, e2⟩ := slabOk_lengths hso
                omega
              simp only [List.getElem_map, List.getElem_range]
              show (writeData start count buf v.data
                (unrank start count n)).getD _ = buf[n]
              unfold writeData
              rw [slabPos_unrank start count hsl n hn]
              have hb : buf[n]? = some buf[n] := List.getElem?_eq_getElem h2
              simp [hb]
          · simp [writeSlab, hv, hso, htype, hlen] at h

/-- C3 witness: writing the double buffer `[1, 2]` over the sample
variable and reading the same region back returns `[1, 2]`. -/
theorem writeSlab_readSlab_witness :
    writeSlab sampleFile sampleVarName [0] [2] sampleBuf = .ok sampleWritten ∧
    readSlab sampleWritten sampleVarName [0] [2] = .ok sampleBuf := by
  have h : writeSlab sampleFile sampleVarName [0] [2] sampleBuf
      = .ok sampleWritten := by
    with_unfolding_all rfl
  exact ⟨h, writeSlab_readSlab sampleFile sampleWritten sampleVarName
    [0] [2] sampleBuf h⟩

/-- C5: reading any region of a variable none of whose requested indices
was ever written returns the declared fill value for the variable's
element type uniformly across the whole region. -/
theorem readSlab_fill (f : nc_file_struct) (varName : String)
    (start count : List Nat) (v : NcVarState)
    (hopen : f.isOpen = true)
    (hv : varLookup f.vars varName = some v)
    (hso : slabOk v.shape start count = true)
    (hnw : ∀ k, k < count.prod → v.data (unrank start count k) = none) :
    readSlab f varName start count
      = .ok (List.replicate count.prod (fillOf f v.etype)) := by
  rw [readSlab_eq f varName start count v hopen hv hso]
  congr 1
  apply List.ext_getElem
  · simp
  · intro n h1 h2
    have hn : n < count.prod := by simpa using h1
    simp only [List.getElem_map, List.getElem_range, List.getElem_replicate]
    rw [hnw n hn]
    rfl

/-- C5 witness: reading the whole extent of the never-written sample
variable returns the handle's double fill value 9999 at both positions. -/
theorem readSlab_fill_witness :
    readSlab sampleFile sampleVarName [0] [2]
      = .ok (List.replicate 2 (NcVal.vd 9999)) := by
  exact readSlab_fill sampleFile sampleVarName [0] [2] sampleVar rfl rfl
    (by decide) (fun k _ => rfl)

/-- C7: a successful `defineDimension` is idempotent — repeating it with
the same name and size is a no-op returning the same handle and leaving
the file unchanged — while redefining the name with any different size
fails with DimensionConflict. -/
theorem defineDimension_idempotent (f f2 : nc_file_struct) (nm : String)
    (size hdl : Nat)
    (h : defineDimension f nm size = .ok (f2, hdl)) :
    defineDimension f2 nm size = .ok (f2, hdl) ∧
    (∀ size2, size2 ≠ size →
      defineDimension f2 nm size2 = .error .DimensionConflict) := by
  by_cases hopen : f.isOpen = false
  · simp [defineDimension, hopen] at h
  · cases hd : dimLookup f.dims nm with
    | some pr =>
      obtain ⟨id, sz⟩ := pr
      by_cases hsz : sz = size
      · subst hsz
        have h2 : f = f2 ∧ id = hdl := by
          simpa [defineDimension, hopen, hd] using h
        obtain ⟨rfl, rfl⟩ := h2
        constructor
        · simp [defineDimension, hopen, hd]
        · intro size2 hs2
          simp [defineDimension, hopen, hd, Ne.symm hs2]
      · simp [defineDimension, hopen, hd, hsz] at h
    | none =>
      have h2 : addDim f nm size = f2 ∧ f.nextDimId = hdl := by
        simpa [defineDimension, hopen, hd] using h
      obtain ⟨rfl, rfl⟩ := h2
      have hd2 : dimLookup (addDim f nm size).dims nm
          = some (f.nextDimId, size) :=
        dimLookup_append_none f.dims nm f.nextDimId size hd
      constructor
      · simp [defineDimension, addDim, hopen]
        simp only [addDim] at hd2
        simp [hd2]
      · intro size2 hs2
        simp [defineDimension, addDim, hopen]
        simp only [addDim] at hd2
        simp [hd2, Ne.symm hs2]

/-- C7 witness: after defining dimension `time` with size 4, repeating
the definition returns the same file and handle 1, and redefining `time`
with size 7 fails with DimensionConflict. -/
theorem defineDimension_idempotent_witness :
    defineDimension dimFile sampleDimName 4 = .ok (dimFile, 1) ∧
    defineDimension dimFile sampleDimName 7 = .error .DimensionConflict := by
  have h : defineDimension sampleFile sampleDimName 4 = .ok (dimFile, 1) := by
    with_unfolding_all rfl
  have h2 := defineDimension_idempotent sampleFile dimFile sampleDimName 4 1 h
  exact ⟨h2.1, h2.2 7 (by decide)⟩

/-- C8: `defineVariable` fails with RankTooLarge exactly when the
declared rank exceeds MAXDIMS, which is fixed at 10; every descriptor of
rank at most 10 passes the rank check and is registered. -/
theorem defineVariable_rank (f : nc_file_struct) (vspec : nc_var_struct)
    (hopen : f.isOpen = true) :
    MAXDIMS = 10 ∧
    (defineVariable f vspec = .error .RankTooLarge ↔ MAXDIMS < vspec.nc_dims) ∧
    (vspec.nc_dims ≤ MAXDIMS → vicOk (defineVariable f vspec) = true) := by
  refine ⟨rfl, ?_, ?_⟩
  · by_cases hr : MAXDIMS < vspec.nc_dims
    · simp [defineVariable, hopen, hr]
    · simp [defineVariable, hopen, hr]
  · intro hle
    have hr : ¬ MAXDIMS < vspec.nc_dims := not_lt.mpr hle
    simp [defineVariable, hopen, hr, vicOk]

/-- C8 witness: the sample rank-1 descriptor passes the rank check on the
open sample file. -/
theorem defineVariable_rank_witness :
    MAXDIMS = 10 ∧
    (defineVariable sampleFile sampleVarSpec = .error .RankTooLarge ↔
      MAXDIMS < sampleVarSpec.nc_dims) ∧
    (sampleVarSpec.nc_dims ≤ MAXDIMS →
      vicOk (defineVariable sampleFile sampleVarSpec) = true) :=
  defineVariable_rank sampleFile sampleVarSpec rfl

/-- C10: the slab I/O surface of vic_driver_image.h is asymmetric in
element types — reads are declared for double, float and int, writes only
for double and int, so the write-then-read round-trip is realizable
exactly for double and int (in particular not for float or char). -/
theorem slab_io_type_asymmetry :
    ElemType.tDouble ∈ getFieldElemTypes ∧
    ElemType.tFloat ∈ getFieldElemTypes ∧
    ElemType.tInt ∈ getFieldElemTypes ∧
    ElemType.tFloat ∉ putFieldElemTypes ∧
    ElemType.tChar ∉ putFieldElemTypes ∧
    (∀ t : ElemType,
      (t ∈ getFieldElemTypes ∧ t ∈ putFieldElemTypes) ↔
        (t = ElemType.tDouble ∨ t = ElemType.tInt)) := by
  refine ⟨by decide, by decide, by decide, by decide, by decide, ?_⟩
  intro t
  cases t <;> decide

/-- C4: over the sub-step values 2, 3, 5, flushing a SUM accumulator
yields 10, an AVERAGE accumulator 10/3, an END_VALUE accumulator 5, a MAX
accumulator 5; and every flush resets the accumulator to the identity of
its aggregation kind. -/
theorem agg_flush_values (fill : ℚ) :
    (aggRun .AGG_SUM fill [2, 3, 5]).1 = 10 ∧
    (aggRun .AGG_AVERAGE fill [2, 3, 5]).1 = 10/3 ∧
    (aggRun .AGG_END_VALUE fill [2, 3, 5]).1 = 5 ∧
    (aggRun .AGG_MAX fill [2, 3, 5]).1 = 5 ∧
    (∀ t s, (aggFlush t fill s).2 = aggIdentity t) := by
  refine ⟨?_, ?_, rfl, ?_, fun t s => by cases t <;> rfl⟩
  · norm_num [aggRun, aggStep, aggFlush, aggIdentity]
  · norm_num [aggRun, aggStep, aggFlush, aggIdentity]
  · show max (max (2:ℚ) 3) 5 = 5
    rw [max_eq_right (show (2:ℚ) ≤ 3 by norm_num),
      max_eq_right (show (3:ℚ) ≤ 5 by norm_num)]

end VIC
